import Mathlib

/-!
Verification of the Bokeh document module (`src/bokeh/document.py`).

The Python module is shallowly embedded into Lean:

* Models are identified with their ids (`ModelId := Nat`); the external
  Model Capability (the concrete `Model` class hierarchy is out of scope
  for the module under study) is an environment `ModelEnv` providing each
  model's transitive reference closure and optional name.
* Python `dict`s become association lists, Python `set`s become `Finset`s.
* Event emission (`Document._trigger_on_change`) is recorded in an event
  trace on the document state; the listener-dispatch mechanics
  (`_with_self_as_curdoc`, callback iteration) are modelled separately
  with an explicit world state and deep-embedded callback behaviours.
* Fallible operations (`raise ValueError` etc.) return `Except PyErr`.
-/

set_option maxHeartbeats 1000000

abbrev ModelId := Nat

/-- Python error kinds raised by the module. -/
inductive PyErr where
  | valueError
  | keyError
  | attributeError
  | runtimeError
deriving DecidableEq, Repr

instance {ε α : Type} [DecidableEq ε] [DecidableEq α] : DecidableEq (Except ε α) := fun a b =>
  match a, b with
  | .ok x, .ok y =>
      if h : x = y then .isTrue (by rw [h])
      else .isFalse (by intro hc; injection hc with h2; exact h h2)
  | .error x, .error y =>
      if h : x = y then .isTrue (by rw [h])
      else .isFalse (by intro hc; injection hc with h2; exact h h2)
  | .ok _, .error _ => .isFalse (by intro hc; exact Except.noConfusion hc)
  | .error _, .ok _ => .isFalse (by intro hc; exact Except.noConfusion hc)

/-! ## `_MultiValuedDict` (document.py lines 132–185)

Stores a mapping from keys to multiple values, avoiding the overhead of
always having a collection as the value: an entry is either a single
scalar or a set. The `ValueError` guards of `add_value` (null key, null
value, set value) are enforced here by the types: keys and values are
plain (non-optional, non-set) values. -/

/-- A stored entry of `_MultiValuedDict`: either one scalar value or a set. -/
inductive MVEntry (V : Type) where
  | single (v : V)
  | many (s : Finset V)
deriving DecidableEq

/-- `_MultiValuedDict` is a Python dict from keys to entries; embedded as an
association list with unique keys (`mv_set`/`mv_del` act on every binding of
the key, which on dict-like lists is the one binding). -/
abbrev MultiValuedDict (K V : Type) := List (K × MVEntry V)

/-- First-match association-list lookup (`self._dict.get(key, None)`). -/
def mv_lookup {K V : Type} [DecidableEq K] : MultiValuedDict K V → K → Option (MVEntry V)
  | [], _ => none
  | (k', e) :: rest, k => if k' = k then some e else mv_lookup rest k

/-- Dict assignment `self._dict[key] = entry`: drop any binding of the key
and append the new one. -/
def mv_set {K V : Type} [DecidableEq K] (d : MultiValuedDict K V) (k : K) (e : MVEntry V) :
    MultiValuedDict K V :=
  d.filter (fun p => decide (p.1 ≠ k)) ++ [(k, e)]

/-- Dict deletion `del self._dict[key]`. -/
def mv_del {K V : Type} [DecidableEq K] (d : MultiValuedDict K V) (k : K) :
    MultiValuedDict K V :=
  d.filter (fun p => decide (p.1 ≠ k))

/-- `_MultiValuedDict.add_value` (lines 140–153). On a fresh key the scalar is
stored directly; a scalar binding is promoted to a two-element set (a Python
`set([x, y])`, so duplicates collapse); a set binding is extended. -/
def add_value {K V : Type} [DecidableEq K] [DecidableEq V]
    (d : MultiValuedDict K V) (k : K) (v : V) : MultiValuedDict K V :=
  match mv_lookup d k with
  | none => mv_set d k (.single v)
  | some (.single w) => mv_set d k (.many {w, v})
  | some (.many s) => mv_set d k (.many (insert v s))

/-- `_MultiValuedDict.remove_value` (lines 155–166). A set binding discards the
value (deleting the key when the set empties); a scalar binding is deleted when
equal to the value; otherwise nothing happens. -/
def remove_value {K V : Type} [DecidableEq K] [DecidableEq V]
    (d : MultiValuedDict K V) (k : K) (v : V) : MultiValuedDict K V :=
  match mv_lookup d k with
  | some (.many s) =>
      let s' := s.erase v
      if s' = ∅ then mv_del d k else mv_set d k (.many s')
  | some (.single w) => if w = v then mv_del d k else d
  | none => d

/-- `_MultiValuedDict.get_all` (lines 178–185). A set entry is listed in an
unspecified order in Python; we fix the ascending order. -/
def get_all {K V : Type} [DecidableEq K] [LinearOrder V]
    (d : MultiValuedDict K V) (k : K) : List V :=
  match mv_lookup d k with
  | none => []
  | some (.many s) => s.sort (· ≤ ·)
  | some (.single w) => [w]

/-! ## The Model Capability environment

The concrete `Model` hierarchy is external to the module (imported from
`.model`). We embed it as an environment assigning each model id its
transitive reference closure `references()` (which, per the capability
contract, contains the model itself) and its optional `name`. Model
identity is the id; reconstructing a model from JSON with the same id
yields a model with the same capability data. -/

structure ModelEnv where
  refs : ModelId → Finset ModelId
  mname : ModelId → Option String

/-! ## Session callback handles (document.py lines 93–130) -/

/-- The flavour of a session callback: `PeriodicCallback` stores a period,
`TimeoutCallback` a timeout. -/
inductive SCKind where
  | periodic (period : Nat)
  | timeout (ms : Nat)
deriving DecidableEq, Repr

/-- A `SessionCallback` handle: its `_id` (externally supplied, or a fresh
uuid, which we model as an explicitly passed number), the identity of the
stored callback (`_callback`, the curdoc-wrapping of the user callback —
we track the user callback's identity token), and its flavour.
The `_document` back-reference is the owning document and is implicit in
our single-document operations. -/
structure SessionCallback where
  sid : Nat
  callbackFn : Nat
  kind : SCKind
deriving DecidableEq, Repr

/-! ## Values and events

`Model.collect_models(value)` finds models anywhere inside an arbitrary
value (scalar, sequence, model); we embed values as a small JSON-like
tree with embedded model references. -/

inductive JValue where
  | jstr (s : String)
  | jnum (n : Int)
  | jmodel (m : ModelId)
  | jlist (vs : List JValue)

mutual

/-- Decidable equality on values (Python `==` on the embedded values; for
models, identity of the referenced model). -/
def jvalue_dec_eq : (a b : JValue) → Decidable (a = b)
  | .jstr a, .jstr b =>
      if h : a = b then .isTrue (by rw [h])
      else .isFalse (by intro hc; injection hc with h2; exact h h2)
  | .jstr _, .jnum _ => .isFalse (by intro h; exact JValue.noConfusion h)
  | .jstr _, .jmodel _ => .isFalse (by intro h; exact JValue.noConfusion h)
  | .jstr _, .jlist _ => .isFalse (by intro h; exact JValue.noConfusion h)
  | .jnum _, .jstr _ => .isFalse (by intro h; exact JValue.noConfusion h)
  | .jnum a, .jnum b =>
      if h : a = b then .isTrue (by rw [h])
      else .isFalse (by intro hc; injection hc with h2; exact h h2)
  | .jnum _, .jmodel _ => .isFalse (by intro h; exact JValue.noConfusion h)
  | .jnum _, .jlist _ => .isFalse (by intro h; exact JValue.noConfusion h)
  | .jmodel _, .jstr _ => .isFalse (by intro h; exact JValue.noConfusion h)
  | .jmodel _, .jnum _ => .isFalse (by intro h; exact JValue.noConfusion h)
  | .jmodel a, .jmodel b =>
      if h : a = b then .isTrue (by rw [h])
      else .isFalse (by intro hc; injection hc with h2; exact h h2)
  | .jmodel _, .jlist _ => .isFalse (by intro h; exact JValue.noConfusion h)
  | .jlist _, .jstr _ => .isFalse (by intro h; exact JValue.noConfusion h)
  | .jlist _, .jnum _ => .isFalse (by intro h; exact JValue.noConfusion h)
  | .jlist _, .jmodel _ => .isFalse (by intro h; exact JValue.noConfusion h)
  | .jlist as, .jlist bs =>
      match jvalue_list_dec_eq as bs with
      | .isTrue h => .isTrue (by rw [h])
      | .isFalse h => .isFalse (by intro hc; injection hc with h2; exact h h2)

def jvalue_list_dec_eq : (as bs : List JValue) → Decidable (as = bs)
  | [], [] => .isTrue rfl
  | [], _ :: _ => .isFalse (by intro h; exact List.noConfusion h)
  | _ :: _, [] => .isFalse (by intro h; exact List.noConfusion h)
  | a :: as, b :: bs =>
      match jvalue_dec_eq a b, jvalue_list_dec_eq as bs with
      | .isTrue h1, .isTrue h2 => .isTrue (by rw [h1, h2])
      | .isFalse h1, _ => .isFalse (by intro hc; injection hc with hx hy; exact h1 hx)
      | _, .isFalse h2 => .isFalse (by intro hc; injection hc with hx hy; exact h2 hy)

end

instance : DecidableEq JValue := jvalue_dec_eq

mutual

/-- `Model.collect_models`: the set of models found anywhere inside a value. -/
def collect_models : JValue → Finset ModelId
  | .jstr _ => ∅
  | .jnum _ => ∅
  | .jmodel m => {m}
  | .jlist vs => collect_models_list vs

def collect_models_list : List JValue → Finset ModelId
  | [] => ∅
  | v :: vs => collect_models v ∪ collect_models_list vs

end

/-- The payload of a `DocumentChangedEvent` variant (document.py lines
28–91), as a closed sum. -/
inductive PEventData where
  | modelChanged (model : ModelId) (attr : String) (oldV newV : JValue)
  | titleChanged (title : String)
  | rootAdded (model : ModelId)
  | rootRemoved (model : ModelId)
  | sessionCallbackAdded (cb : SessionCallback)
  | sessionCallbackRemoved (cb : SessionCallback)
deriving DecidableEq

/-- An emitted event: every event carries the owning document
(`self.document = document` in each constructor), identified by number. -/
structure PEvent where
  document : Nat
  data : PEventData
deriving DecidableEq

/-! ## The document state (Document.__init__, lines 189–201)

`_all_models` maps ids to models; under the id embedding its key set
carries all information, so it is a `Finset`. `attached` is the set of
models whose `document` back-pointer is this document (`_attach_document`
inserts, `_detach_document` removes). The event trace records what
`_trigger_on_change` emitted; listener invocation itself is modelled
separately below (`CurdocWorld`). The theme is external and not modelled. -/

structure DocState where
  docId : Nat
  roots : Finset ModelId
  title : String
  freezeCount : Nat
  allModels : Finset ModelId
  attached : Finset ModelId
  allModelsByName : MultiValuedDict String ModelId
  events : List PEvent
  sessionCallbacks : List (Nat × SessionCallback)
deriving DecidableEq

def DEFAULT_TITLE : String := "Bokeh Application"

/-- `Document()` with no arguments: empty roots, default title, zero freeze
count, empty model table, name index and callback tables. -/
def initDocState (docId : Nat) : DocState :=
  { docId := docId
    roots := ∅
    title := DEFAULT_TITLE
    freezeCount := 0
    allModels := ∅
    attached := ∅
    allModelsByName := []
    events := []
    sessionCallbacks := [] }

/-- `_trigger_on_change(event)`: the emission is recorded on the trace; the
dispatch to listeners (snapshot iteration under the current document) is
modelled by `triggerDispatch` below. -/
def trigger_on_change (s : DocState) (d : PEventData) : DocState :=
  { s with events := s.events ++ [⟨s.docId, d⟩] }

/-- `_push_all_models_freeze` (lines 240–241). -/
def push_all_models_freeze (s : DocState) : DocState :=
  { s with freezeCount := s.freezeCount + 1 }

/-- `_recompute_all_models` (lines 253–271): recompute the closure of the
roots, detach the models that fell out, attach the new ones, and rebuild
the id table and the by-name index from the new set. -/
def recompute_all_models (env : ModelEnv) (s : DocState) : DocState :=
  let newSet := s.roots.biUnion env.refs
  let oldSet := s.allModels
  let toDetach := oldSet \ newSet
  let toAttach := newSet \ oldSet
  let byName := (newSet.sort (· ≤ ·)).foldl
    (fun d m => match env.mname m with
      | some n => add_value d n m
      | none => d) []
  { s with
    allModels := newSet
    allModelsByName := byName
    attached := (s.attached \ toDetach) ∪ toAttach }

/-- `_pop_all_models_freeze` (lines 243–246): decrement, and recompute when
the counter reaches zero. -/
def pop_all_models_freeze (env : ModelEnv) (s : DocState) : DocState :=
  let s' := { s with freezeCount := s.freezeCount - 1 }
  if s'.freezeCount = 0 then recompute_all_models env s' else s'

/-- `Document.add_root` (lines 311–326): no-op when already a root, else
freeze, insert, unfreeze, emit `RootAddedEvent`. -/
def add_root (env : ModelEnv) (s : DocState) (m : ModelId) : DocState :=
  if m ∈ s.roots then s
  else
    trigger_on_change
      (pop_all_models_freeze env
        { push_all_models_freeze s with roots := insert m s.roots })
      (.rootAdded m)

/-- `Document.remove_root` (lines 342–356): no-op when not a root, else
freeze, remove, unfreeze, emit `RootRemovedEvent`. -/
def remove_root (env : ModelEnv) (s : DocState) (m : ModelId) : DocState :=
  if m ∉ s.roots then s
  else
    trigger_on_change
      (pop_all_models_freeze env
        { push_all_models_freeze s with roots := s.roots.erase m })
      (.rootRemoved m)

/-- `Document.clear` (lines 203–211): under one outer freeze, repeatedly
remove an arbitrary root until none remain, then unfreeze. Removing a root
never adds one, so the loop removes exactly the roots present at entry; we
iterate them in ascending order. -/
def clear (env : ModelEnv) (s : DocState) : DocState :=
  let s1 := push_all_models_freeze s
  pop_all_models_freeze env ((s1.roots.sort (· ≤ ·)).foldl (remove_root env) s1)

/-- The `title` setter (lines 281–287): `None` is rejected with
`ValueError`; an actual change stores the new title and emits
`TitleChangedEvent`; setting the current title does nothing. -/
def set_title (s : DocState) (t : Option String) : Except PyErr DocState :=
  match t with
  | none => .error .valueError
  | some t =>
      if s.title ≠ t then
        .ok (trigger_on_change { s with title := t } (.titleChanged t))
      else
        .ok s

/-! ## Session-callback registry (lines 729–785) -/

/-- First-match lookup in the session-callback table (a dict keyed by the
user callback object, tokenised as a number). -/
def sc_lookup : List (Nat × SessionCallback) → Nat → Option SessionCallback
  | [], _ => none
  | (k, c) :: rest, key => if k = key then some c else sc_lookup rest key

/-- Dict assignment `self._session_callbacks[callback] = cb`. -/
def sc_set (l : List (Nat × SessionCallback)) (k : Nat) (c : SessionCallback) :
    List (Nat × SessionCallback) :=
  l.filter (fun p => decide (p.1 ≠ k)) ++ [(k, c)]

/-- Dict removal `self._session_callbacks.pop(callback)` (the removal part). -/
def sc_del (l : List (Nat × SessionCallback)) (k : Nat) :
    List (Nat × SessionCallback) :=
  l.filter (fun p => decide (p.1 ≠ k))

/-- `Document.add_periodic_callback` (lines 733–744): build a
`PeriodicCallback` handle around the curdoc-wrapped callback, register it
under the user callback, emit `SessionCallbackAdded`, return the handle.
The uuid default for `id` is external; the chosen id is passed in. -/
def add_periodic_callback (s : DocState) (callback period cbId : Nat) :
    DocState × SessionCallback :=
  let cb : SessionCallback := ⟨cbId, callback, .periodic period⟩
  let s := { s with sessionCallbacks := sc_set s.sessionCallbacks callback cb }
  (trigger_on_change s (.sessionCallbackAdded cb), cb)

/-- `Document.add_timeout_callback` (lines 754–765), analogous. -/
def add_timeout_callback (s : DocState) (callback ms cbId : Nat) :
    DocState × SessionCallback :=
  let cb : SessionCallback := ⟨cbId, callback, .timeout ms⟩
  let s := { s with sessionCallbacks := sc_set s.sessionCallbacks callback cb }
  (trigger_on_change s (.sessionCallbackAdded cb), cb)

/-- `Document._remove_session_callback` (lines 776–785): pop the table
entry for the given key (`dict.pop` raises `KeyError` when absent) and
emit `SessionCallbackRemoved` carrying the popped handle. -/
def remove_session_callback (s : DocState) (callback : Nat) :
    Except PyErr DocState :=
  match sc_lookup s.sessionCallbacks callback with
  | none => .error .keyError
  | some cb =>
      .ok (trigger_on_change
        { s with sessionCallbacks := sc_del s.sessionCallbacks callback }
        (.sessionCallbackRemoved cb))

/-- `SessionCallback.remove` (lines 111–112) reads `self.document`, but
`SessionCallback` defines only the `_id`, `_document` and `_callback`
attributes and `id`/`callback` properties — there is no `document`
attribute or property, so the attribute lookup raises `AttributeError`
before `_remove_session_callback` is ever reached. (Were `document` read
as `_document`, the call would still pop the handle object `self` from a
table keyed by user callbacks, raising `KeyError`.) -/
def handle_remove (_s : DocState) (_h : SessionCallback) : Except PyErr DocState :=
  .error .attributeError

/-! ## Event dispatch (document.py lines 28–91)

`dispatch(receiver)` calls the superclass dispatch and then the
capability method the receiver advertises via `hasattr`. A receiver is
embedded as the set of capability attributes it defines; a dispatch
returns the list of attribute names invoked, in call order. -/

structure Receiver where
  hasDocumentChanged : Bool
  hasDocumentPatched : Bool
  hasDocumentModelChanged : Bool
deriving DecidableEq, Repr

/-- `DocumentChangedEvent.dispatch` (lines 32–34). -/
def document_changed_dispatch (r : Receiver) : List String :=
  if r.hasDocumentChanged then ["_document_changed"] else []

/-- `DocumentPatchedEvent.dispatch` (lines 40–43): super dispatch, then
`_document_patched` when advertised. -/
def document_patched_dispatch (r : Receiver) : List String :=
  document_changed_dispatch r ++
    (if r.hasDocumentPatched then ["_document_patched"] else [])

/-- `ModelChangedEvent.dispatch` (lines 53–56): super dispatch, then —
although the guard is `hasattr(receiver, '_document_model_changed')` —
the body calls `receiver._document_patched(self)`. -/
def model_changed_dispatch (r : Receiver) : List String :=
  document_patched_dispatch r ++
    (if r.hasDocumentModelChanged then ["_document_patched"] else [])

/-! ## Listener dispatch under the current document (lines 449–470)

`_trigger_on_change` builds a closure iterating `self._callbacks.values()`
(a snapshot list of the registered callbacks) and runs it via
`_with_self_as_curdoc`, which saves the process-wide current document,
sets it to this document, and restores the saved value in a `finally`.
Listener behaviour is deep-embedded: a callback may do nothing, register
a listener (`on_change`), remove one (`remove_on_change`), or raise. -/

inductive CbAct where
  | noop
  | addCb (i : Nat)
  | removeCb (i : Nat)
  | failCb
deriving DecidableEq, Repr

/-- The world visible to listener dispatch: the process-wide current
document (`bokeh.io.curdoc`), the listener registry `_callbacks` (keyed
by callback identity), and the observed invocations: each invoked
callback id together with the current document at invocation time. -/
structure CurdocWorld where
  curdoc : Option Nat
  callbacks : List (Nat × CbAct)
  invoked : List (Nat × Option Nat)
deriving DecidableEq, Repr

/-- Run one callback `cb(event)`: record the invocation (with the current
document in effect), then perform its behaviour. `addCb` follows
`on_change` (skip when already registered, lines 424–434); `removeCb`
follows `remove_on_change` (`del` raises `KeyError` when absent, lines
440–447). The returned flag is true when the callback raised. -/
def runCb (g : CurdocWorld) (c : Nat × CbAct) : CurdocWorld × Bool :=
  let g := { g with invoked := g.invoked ++ [(c.1, g.curdoc)] }
  match c.2 with
  | .noop => (g, false)
  | .addCb i =>
      (if g.callbacks.any (fun p => p.1 == i) then g
       else { g with callbacks := g.callbacks ++ [(i, .noop)] }, false)
  | .removeCb i =>
      if g.callbacks.any (fun p => p.1 == i) then
        ({ g with callbacks := g.callbacks.filter (fun p => !(p.1 == i)) }, false)
      else (g, true)
  | .failCb => (g, true)

/-- Run a list of callbacks in order; a raise propagates, aborting the
iteration. -/
def runCbs : CurdocWorld → List (Nat × CbAct) → CurdocWorld × Bool
  | g, [] => (g, false)
  | g, c :: cs =>
      let r := runCb g c
      if r.2 then (r.1, true) else runCbs r.1 cs

/-- The `invoke_callbacks` closure of `_trigger_on_change` (lines
467–469): iterate the snapshot of `self._callbacks.values()` taken when
the loop starts. -/
def invokeCallbacks (g : CurdocWorld) : CurdocWorld × Bool :=
  runCbs g g.callbacks

/-- `Document._with_self_as_curdoc` (lines 449–456): save the old current
document, set this one, run, and restore the old value on every exit path
(the `finally` also runs when `f` raised, re-raising afterwards). -/
def withSelfAsCurdoc (d : Nat) (f : CurdocWorld → CurdocWorld × Bool)
    (g : CurdocWorld) : CurdocWorld × Bool :=
  let oldDoc := g.curdoc
  let r := f { g with curdoc := some d }
  ({ r.1 with curdoc := oldDoc }, r.2)

/-- `Document._trigger_on_change` (lines 466–470), dispatch side. -/
def triggerDispatch (d : Nat) (g : CurdocWorld) : CurdocWorld × Bool :=
  withSelfAsCurdoc d invokeCallbacks g

/-! ## Full-document JSON (lines 539–598)

`to_json` goes through `to_json_string` and `loads`; we model the JSON
object directly. A model record is `m.ref` plus its attribute snapshot;
under the id embedding the record is determined by the id, the attribute
snapshot being the environment's data for that id. The version string
comes from the external `util.version`. -/

def bokehVersion : String := "__version__"

structure DocJson where
  title : String
  rootIds : List ModelId
  references : List ModelId
  version : String
deriving DecidableEq, Repr

/-- `Document.to_json` / `to_json_string` (lines 539–574): the root id
list (set iteration fixed to ascending order) and a record for every
model in `_all_models`. -/
def to_json (s : DocState) : DocJson :=
  { title := s.title
    rootIds := s.roots.sort (· ≤ ·)
    references := s.allModels.sort (· ≤ ·)
    version := bokehVersion }

/-- First-match association-list lookup for the instantiated-references
map (`references[r]`; a missing key raises `KeyError`). -/
def ref_lookup : List (ModelId × ModelId) → ModelId → Option ModelId
  | [], _ => none
  | (k, v) :: rest, key => if k = key then some v else ref_lookup rest key

/-- `Document._instantiate_references_json` (lines 495–511): construct an
instance per record, keyed by id. Under the id embedding, the instance for
a record is its model id (`Model.get_class`/construction are external and
identity-preserving on the capability data). -/
def instantiate_references_json (records : List ModelId) : List (ModelId × ModelId) :=
  records.map (fun r => (r, r))

/-- The root-adding loop of `Document.from_json` (lines 592–594):
`doc.add_root(references[r])` for each listed root id. -/
def add_roots_from_json (env : ModelEnv) (refsMap : List (ModelId × ModelId)) :
    List ModelId → DocState → Except PyErr DocState
  | [], d => .ok d
  | r :: rest, d =>
      match ref_lookup refsMap r with
      | none => .error .keyError
      | some inst => add_roots_from_json env refsMap rest (add_root env d inst)

/-- `Document.from_json` (lines 582–598): instantiate and initialize the
references (initialization re-creates each model's attributes from its
record — under the id embedding the capability data of id `r` is already
`env`'s data for `r`), build a fresh document, add the roots in listed
order, and assign the title last (through the setter). -/
def from_json (env : ModelEnv) (j : DocJson) : Except PyErr DocState := do
  let doc ← add_roots_from_json env (instantiate_references_json j.references)
    j.rootIds (initDocState 0)
  set_title doc (some j.title)

/-! ## Patch generation (`create_json_patch_string`, lines 605–662) -/

/-- A patch event record, as placed in the `events` array of the patch. -/
inductive JPatchRecord where
  | modelChanged (model : ModelId) (attr : String) (new : JValue)
  | rootAdded (model : ModelId)
  | rootRemoved (model : ModelId)
  | titleChanged (title : String)
deriving DecidableEq

/-- Whether an event kind is one of the four the patch generator records
(the `isinstance` chain of lines 620–655); any other kind falls through
the chain with no `else`. -/
def isPatchRecorded : PEventData → Bool
  | .modelChanged _ _ _ _ => true
  | .rootAdded _ => true
  | .rootRemoved _ => true
  | .titleChanged _ => true
  | _ => false

/-- The event loop of `create_json_patch_string` (lines 614–655),
accumulating the event records and the references set. Events from
another document raise `ValueError`. For a `ModelChangedEvent` the models
collected from the new value are added, minus `event.model` itself unless
the new value literally is that model; for `RootAddedEvent` the root's
whole reference closure is added. -/
def create_json_patch_events (env : ModelEnv) (selfId : Nat) :
    List PEvent → List JPatchRecord → Finset ModelId →
    Except PyErr (List JPatchRecord × Finset ModelId)
  | [], recs, acc => .ok (recs, acc)
  | e :: rest, recs, acc =>
      if e.document ≠ selfId then .error .valueError
      else
        match e.data with
        | .modelChanged m attr _oldV newV =>
            let valueRefs := collect_models newV
            let valueRefs := if JValue.jmodel m ≠ newV then valueRefs.erase m else valueRefs
            create_json_patch_events env selfId rest
              (recs ++ [.modelChanged m attr newV]) (acc ∪ valueRefs)
        | .rootAdded m =>
            create_json_patch_events env selfId rest
              (recs ++ [.rootAdded m]) (acc ∪ env.refs m)
        | .rootRemoved m =>
            create_json_patch_events env selfId rest
              (recs ++ [.rootRemoved m]) acc
        | .titleChanged t =>
            create_json_patch_events env selfId rest
              (recs ++ [.titleChanged t]) acc
        | .sessionCallbackAdded _ =>
            create_json_patch_events env selfId rest recs acc
        | .sessionCallbackRemoved _ =>
            create_json_patch_events env selfId rest recs acc

/-- `Document.create_json_patch_string` (lines 605–662), up to the final
serialization: the event records and the accumulated references set. -/
def create_json_patch (env : ModelEnv) (selfId : Nat) (events : List PEvent) :
    Except PyErr (List JPatchRecord × Finset ModelId) :=
  create_json_patch_events env selfId events [] ∅

/-! ## The closure invariant -/

/-- The externally observable document invariant: freeze counter zero,
`_all_models` is the union of the roots' reference closures, and exactly
the models in `_all_models` carry this document as their back-pointer. -/
def DocInvariant (env : ModelEnv) (s : DocState) : Prop :=
  s.freezeCount = 0 ∧
  s.allModels = s.roots.biUnion env.refs ∧
  s.attached = s.allModels

instance (env : ModelEnv) (s : DocState) : Decidable (DocInvariant env s) := by
  unfold DocInvariant; infer_instance

/-- A small concrete capability environment for concrete runs: every model
references exactly itself and has no name. -/
def envSelf : ModelEnv := ⟨fun m => {m}, fun _ => none⟩

/-- A small concrete document with two self-referencing roots (under
`envSelf`), satisfying the closure invariant, for concrete runs. -/
def docTwoRoots : DocState :=
  { initDocState 0 with roots := {1, 2}, allModels := {1, 2}, attached := {1, 2} }

/-! # Theorems -/

theorem mv_lookup_set {K V : Type} [DecidableEq K]
    (d : MultiValuedDict K V) (k : K) (e : MVEntry V) :
    mv_lookup (mv_set d k e) k = some e := by
  induction d with
  | nil => simp [mv_set, mv_lookup]
  | cons p rest ih =>
      by_cases h : p.1 = k
      · simpa [mv_set, h] using ih
      · simpa [mv_set, mv_lookup, h] using ih

theorem mv_lookup_del {K V : Type} [DecidableEq K]
    (d : MultiValuedDict K V) (k : K) :
    mv_lookup (mv_del d k) k = none := by
  induction d with
  | nil => simp [mv_del, mv_lookup]
  | cons p rest ih =>
      by_cases h : p.1 = k
      · simpa [mv_del, h] using ih
      · simpa [mv_del, mv_lookup, h] using ih

theorem mv_lookup_add_value {K V : Type} [DecidableEq K] [DecidableEq V]
    (d : MultiValuedDict K V) (k : K) (v : V) :
    mv_lookup (add_value d k v) k =
      some (match mv_lookup d k with
        | none => .single v
        | some (.single w) => .many {w, v}
        | some (.many s) => .many (insert v s)) := by
  unfold add_value
  rcases h : mv_lookup d k with _ | e
  · simp [mv_lookup_set]
  · cases e <;> simp [mv_lookup_set]

/-- C9 fails as stated: on a MultiIndex where the key is already bound to a
different value, adding and removing `(k, v)` leaves the prior binding, so
`get_all(k)` is not empty. Concretely, on `{0 ↦ 1}`, after `add(0, 2)` then
`remove(0, 2)`, `get_all(0) = [1]`. -/
theorem C9_counterexample :
    get_all (remove_value (add_value (add_value ([] : MultiValuedDict Nat Nat) 0 1) 0 2) 0 2) 0 ≠
      [] := by
  have e1 : add_value (add_value ([] : MultiValuedDict Nat Nat) 0 1) 0 2 =
      [(0, .many {1, 2})] := rfl
  have e2 : ({1, 2} : Finset Nat).erase 2 = {1} := by decide
  have e3 : remove_value [(0, MVEntry.many ({1, 2} : Finset Nat))] 0 2 =
      [(0, .many {1})] := by
    unfold remove_value
    simp [mv_lookup, e2, mv_set]
  have e4 : get_all [(0, MVEntry.many ({1} : Finset Nat))] 0 = [1] := by
    simp [get_all, mv_lookup, Finset.sort_singleton]
  rw [e1, e3, e4]
  simp

/-- C9 (amended): for every MultiIndex in which the key `k` is unbound, or
bound (as a scalar or as a set) only to the value `v` itself, performing
`add(k, v)` and then `remove(k, v)` results in `get_all(k)` returning the
empty list. -/
theorem C9_multiindex_roundtrip (d : MultiValuedDict Nat Nat) (k v : Nat)
    (h : mv_lookup d k = none ∨ mv_lookup d k = some (.single v) ∨
      mv_lookup d k = some (.many {v})) :
    get_all (remove_value (add_value d k v) k v) k = [] := by
  rcases h with h | h | h
  · unfold add_value
    rw [h]
    unfold remove_value
    rw [mv_lookup_set]
    simp [get_all, mv_lookup_del]
  · unfold add_value
    rw [h]
    unfold remove_value
    rw [mv_lookup_set]
    have hvv : ({v, v} : Finset Nat) = {v} := by simp
    rw [hvv]
    simp [get_all, mv_lookup_del]
  · unfold add_value
    rw [h]
    unfold remove_value
    rw [mv_lookup_set]
    have hvv : insert v ({v} : Finset Nat) = {v} := by simp
    rw [hvv]
    simp [get_all, mv_lookup_del]

theorem C9_witness :
    (mv_lookup ([] : MultiValuedDict Nat Nat) 4 = none ∨
      mv_lookup ([] : MultiValuedDict Nat Nat) 4 = some (.single 9) ∨
      mv_lookup ([] : MultiValuedDict Nat Nat) 4 = some (.many {9})) ∧
    get_all (remove_value (add_value ([] : MultiValuedDict Nat Nat) 4 9) 4 9) 4 = [] :=
  ⟨Or.inl rfl, C9_multiindex_roundtrip [] 4 9 (Or.inl rfl)⟩

/-- C3: evaluating `ModelChangedEvent.dispatch` on a receiver advertising all
three capability methods shows the source calls `_document_patched` twice and
never `_document_model_changed`: the guard on line 55 checks
`_document_model_changed` but line 56 calls `receiver._document_patched(self)`. -/
theorem C3_model_changed_dispatch_bug :
    model_changed_dispatch ⟨true, true, true⟩ =
      ["_document_changed", "_document_patched", "_document_patched"] ∧
    "_document_model_changed" ∉ model_changed_dispatch ⟨true, true, true⟩ := by
  decide

/-- C5: evaluating the code at the failing input. Adding a periodic callback
registers the handle under the user callback and emits `SessionCallbackAdded`;
but calling the handle's own `remove()` fails with `AttributeError` (there is
no `document` attribute on `SessionCallback`), leaving the registration in
place. Removing a never-added callback fails with `KeyError`. -/
theorem C5_handle_remove_fails :
    handle_remove (add_periodic_callback (initDocState 0) 7 100 3).1
        (add_periodic_callback (initDocState 0) 7 100 3).2 =
      .error .attributeError ∧
    (add_periodic_callback (initDocState 0) 7 100 3).1.sessionCallbacks =
      [(7, ⟨3, 7, .periodic 100⟩)] ∧
    (add_periodic_callback (initDocState 0) 7 100 3).1.events =
      [⟨0, .sessionCallbackAdded ⟨3, 7, .periodic 100⟩⟩] ∧
    remove_session_callback (initDocState 0) 7 = .error .keyError :=
  ⟨rfl, rfl, rfl, rfl⟩

theorem pop_all_models_freeze_fields (env : ModelEnv) (s : DocState) :
    (pop_all_models_freeze env s).roots = s.roots ∧
    (pop_all_models_freeze env s).title = s.title ∧
    (pop_all_models_freeze env s).docId = s.docId ∧
    (pop_all_models_freeze env s).events = s.events ∧
    (pop_all_models_freeze env s).sessionCallbacks = s.sessionCallbacks ∧
    (pop_all_models_freeze env s).freezeCount = s.freezeCount - 1 := by
  by_cases h : s.freezeCount - 1 = 0 <;>
    simp [pop_all_models_freeze, recompute_all_models, h]

theorem pop_all_models_freeze_frozen (env : ModelEnv) (s : DocState)
    (h : s.freezeCount - 1 ≠ 0) :
    pop_all_models_freeze env s = { s with freezeCount := s.freezeCount - 1 } := by
  unfold pop_all_models_freeze
  simp [h]

theorem pop_all_models_freeze_unfreeze (env : ModelEnv) (s : DocState)
    (h : s.freezeCount = 1) :
    pop_all_models_freeze env s =
      recompute_all_models env { s with freezeCount := 0 } := by
  unfold pop_all_models_freeze
  simp [h]

theorem add_root_mem (env : ModelEnv) (s : DocState) (m : ModelId)
    (hm : m ∈ s.roots) : add_root env s m = s := by
  simp [add_root, hm]

theorem remove_root_not_mem (env : ModelEnv) (s : DocState) (m : ModelId)
    (hm : m ∉ s.roots) : remove_root env s m = s := by
  simp [remove_root, hm]

theorem add_root_roots (env : ModelEnv) (s : DocState) (m : ModelId) :
    (add_root env s m).roots = insert m s.roots := by
  by_cases hm : m ∈ s.roots
  · rw [add_root_mem env s m hm, Finset.insert_eq_self.mpr hm]
  · unfold add_root
    rw [if_neg hm]
    show (pop_all_models_freeze env _).roots = _
    rw [(pop_all_models_freeze_fields env _).1]

theorem add_root_events (env : ModelEnv) (s : DocState) (m : ModelId)
    (hm : m ∉ s.roots) :
    (add_root env s m).events = s.events ++ [⟨s.docId, .rootAdded m⟩] := by
  unfold add_root
  rw [if_neg hm]
  show (pop_all_models_freeze env _).events ++
    [⟨(pop_all_models_freeze env _).docId, _⟩] = _
  rw [(pop_all_models_freeze_fields env _).2.2.2.1,
      (pop_all_models_freeze_fields env _).2.2.1]
  rfl

/-- C7: the `title` setter rejects `None` with `ValueError` (state untouched);
an actual change stores the new title and emits exactly one
`TitleChangedEvent` carrying it; re-setting the current title is a silent
no-op. -/
theorem C7_title_setter (s : DocState) (t : String) :
    set_title s none = .error .valueError ∧
    (s.title ≠ t → ∃ d, set_title s (some t) = .ok d ∧ d.title = t ∧
      d.events = s.events ++ [⟨s.docId, .titleChanged t⟩] ∧
      d.roots = s.roots ∧ d.allModels = s.allModels) ∧
    (s.title = t → set_title s (some t) = .ok s) := by
  refine ⟨rfl, ?_, ?_⟩
  · intro h
    refine ⟨trigger_on_change { s with title := t } (.titleChanged t),
      ?_, rfl, rfl, rfl, rfl⟩
    simp [set_title, h]
  · intro h
    simp [set_title, h]

theorem C7_witness :
    ((initDocState 0).title ≠ "X" ∧
      ∃ d, set_title (initDocState 0) (some "X") = .ok d ∧ d.title = "X" ∧
        d.events = (initDocState 0).events ++ [⟨(initDocState 0).docId, .titleChanged "X"⟩] ∧
        d.roots = (initDocState 0).roots ∧ d.allModels = (initDocState 0).allModels) ∧
    ({ initDocState 0 with title := "X" }.title = "X" ∧
      set_title { initDocState 0 with title := "X" } (some "X") =
        .ok { initDocState 0 with title := "X" }) :=
  ⟨⟨by decide, (C7_title_setter (initDocState 0) "X").2.1 (by decide)⟩,
   ⟨rfl, (C7_title_setter { initDocState 0 with title := "X" } "X").2.2 rfl⟩⟩

/-- C8: `add_root` twice equals `add_root` once (the second call is a no-op,
so exactly one `RootAddedEvent` is emitted in total when the model was not
already a root), and `remove_root` on a non-root changes nothing and emits
nothing. -/
theorem C8_root_idempotence (env : ModelEnv) (s : DocState) (m : ModelId) :
    add_root env (add_root env s m) m = add_root env s m ∧
    (m ∉ s.roots →
      (add_root env s m).events = s.events ++ [⟨s.docId, .rootAdded m⟩]) ∧
    (m ∈ s.roots → add_root env s m = s) ∧
    (m ∉ s.roots → remove_root env s m = s) := by
  refine ⟨?_, add_root_events env s m, add_root_mem env s m,
    remove_root_not_mem env s m⟩
  apply add_root_mem
  rw [add_root_roots]
  exact Finset.mem_insert_self m s.roots

theorem C8_witness :
    5 ∉ (initDocState 0).roots ∧
    add_root envSelf (add_root envSelf (initDocState 0) 5) 5 =
      add_root envSelf (initDocState 0) 5 ∧
    (add_root envSelf (initDocState 0) 5).events =
      (initDocState 0).events ++ [⟨(initDocState 0).docId, .rootAdded 5⟩] ∧
    remove_root envSelf (initDocState 0) 5 = initDocState 0 :=
  ⟨by decide, (C8_root_idempotence envSelf (initDocState 0) 5).1,
   (C8_root_idempotence envSelf (initDocState 0) 5).2.1 (by decide),
   (C8_root_idempotence envSelf (initDocState 0) 5).2.2.2 (by decide)⟩

theorem recompute_invariant (env : ModelEnv) (s : DocState)
    (hat : s.attached = s.allModels) (hf : s.freezeCount = 0) :
    DocInvariant env (recompute_all_models env s) := by
  refine ⟨hf, rfl, ?_⟩
  show (s.attached \ (s.allModels \ s.roots.biUnion env.refs)) ∪
      (s.roots.biUnion env.refs \ s.allModels) = s.roots.biUnion env.refs
  rw [hat]
  ext x
  simp only [Finset.mem_union, Finset.mem_sdiff]
  tauto

theorem docInvariant_trigger (env : ModelEnv) (s : DocState) (d : PEventData) :
    DocInvariant env (trigger_on_change s d) ↔ DocInvariant env s := Iff.rfl

theorem add_root_invariant (env : ModelEnv) (s : DocState) (m : ModelId)
    (h : DocInvariant env s) : DocInvariant env (add_root env s m) := by
  by_cases hm : m ∈ s.roots
  · rw [add_root_mem env s m hm]; exact h
  · obtain ⟨hf, hall, hat⟩ := h
    unfold add_root
    rw [if_neg hm]
    rw [pop_all_models_freeze_unfreeze env _ (by simp [push_all_models_freeze, hf])]
    rw [docInvariant_trigger]
    refine recompute_invariant env _ ?_ ?_
    · exact hat
    · rfl

theorem remove_root_invariant (env : ModelEnv) (s : DocState) (m : ModelId)
    (h : DocInvariant env s) : DocInvariant env (remove_root env s m) := by
  by_cases hm : m ∉ s.roots
  · rw [remove_root_not_mem env s m hm]; exact h
  · obtain ⟨hf, hall, hat⟩ := h
    unfold remove_root
    rw [if_neg hm]
    rw [pop_all_models_freeze_unfreeze env _ (by simp [push_all_models_freeze, hf])]
    rw [docInvariant_trigger]
    refine recompute_invariant env _ ?_ ?_
    · exact hat
    · rfl

theorem remove_root_frozen (env : ModelEnv) (s : DocState) (m : ModelId)
    (h : s.freezeCount ≠ 0) :
    (remove_root env s m).roots = s.roots.erase m ∧
    (remove_root env s m).allModels = s.allModels ∧
    (remove_root env s m).attached = s.attached ∧
    (remove_root env s m).freezeCount = s.freezeCount := by
  by_cases hm : m ∈ s.roots
  · unfold remove_root
    rw [if_neg (show ¬(m ∉ s.roots) from fun hc => hc hm)]
    rw [pop_all_models_freeze_frozen env _
      (by simp only [push_all_models_freeze, Nat.add_sub_cancel]; exact h)]
    exact ⟨rfl, rfl, rfl, rfl⟩
  · rw [remove_root_not_mem env s m hm, Finset.erase_eq_of_not_mem hm]
    exact ⟨rfl, rfl, rfl, rfl⟩

theorem foldl_remove_root_frozen (env : ModelEnv) (l : List ModelId) :
    ∀ s : DocState, s.freezeCount ≠ 0 →
    (l.foldl (remove_root env) s).roots = s.roots \ l.toFinset ∧
    (l.foldl (remove_root env) s).allModels = s.allModels ∧
    (l.foldl (remove_root env) s).attached = s.attached ∧
    (l.foldl (remove_root env) s).freezeCount = s.freezeCount := by
  induction l with
  | nil => intro s _; simp
  | cons r rest ih =>
      intro s h
      obtain ⟨h1, h2, h3, h4⟩ := remove_root_frozen env s r h
      obtain ⟨g1, g2, g3, g4⟩ := ih (remove_root env s r) (by rw [h4]; exact h)
      simp only [List.foldl_cons]
      refine ⟨?_, by rw [g2, h2], by rw [g3, h3], by rw [g4, h4]⟩
      rw [g1, h1]
      ext x
      simp only [Finset.mem_sdiff, Finset.mem_erase, List.toFinset_cons,
        Finset.mem_insert]
      tauto

theorem clear_invariant (env : ModelEnv) (s : DocState)
    (h : DocInvariant env s) : DocInvariant env (clear env s) := by
  obtain ⟨hf, hall, hat⟩ := h
  unfold clear
  have h1 : (push_all_models_freeze s).freezeCount ≠ 0 := by
    simp [push_all_models_freeze]
  obtain ⟨_, r2, r3, r4⟩ := foldl_remove_root_frozen env
    ((push_all_models_freeze s).roots.sort (· ≤ ·)) (push_all_models_freeze s) h1
  rw [pop_all_models_freeze_unfreeze env _
    (by rw [r4]; simp [push_all_models_freeze, hf])]
  refine recompute_invariant env _ ?_ ?_
  · exact r3.trans (hat.trans r2.symm)
  · rfl

/-- C1: the closure invariant — with the freeze counter at zero,
`all_models` equals the union of the roots' reference closures and exactly
those models carry this document as their back-pointer — is re-established
by `add_root`, `remove_root` and `clear`. -/
theorem C1_closure_invariant (env : ModelEnv) (s : DocState) (m : ModelId)
    (h : DocInvariant env s) :
    DocInvariant env (add_root env s m) ∧
    DocInvariant env (remove_root env s m) ∧
    DocInvariant env (clear env s) :=
  ⟨add_root_invariant env s m h, remove_root_invariant env s m h,
   clear_invariant env s h⟩

theorem C1_witness :
    DocInvariant envSelf (initDocState 0) ∧
    DocInvariant envSelf (add_root envSelf (initDocState 0) 2) ∧
    DocInvariant envSelf (remove_root envSelf (initDocState 0) 2) ∧
    DocInvariant envSelf (clear envSelf (initDocState 0)) :=
  ⟨by decide, (C1_closure_invariant envSelf (initDocState 0) 2 (by decide)).1,
   (C1_closure_invariant envSelf (initDocState 0) 2 (by decide)).2.1,
   (C1_closure_invariant envSelf (initDocState 0) 2 (by decide)).2.2⟩

theorem ref_lookup_map_self (l : List ModelId) (r : ModelId) :
    r ∈ l → ref_lookup (instantiate_references_json l) r = some r := by
  induction l with
  | nil => intro h; cases h
  | cons a rest ih =>
      intro h
      by_cases ha : a = r
      · simp [instantiate_references_json, ref_lookup, ha]
      · have hr : r ∈ rest := by
          rcases List.mem_cons.mp h with h1 | h1
          · exact absurd h1.symm ha
          · exact h1
        simpa [instantiate_references_json, ref_lookup, ha] using ih hr

theorem add_roots_from_json_ok (env : ModelEnv) (refsMap : List (ModelId × ModelId)) :
    ∀ (l : List ModelId) (d : DocState),
    (∀ r ∈ l, ref_lookup refsMap r = some r) →
    add_roots_from_json env refsMap l d = .ok (l.foldl (add_root env) d) := by
  intro l
  induction l with
  | nil => intro d _; rfl
  | cons r rest ih =>
      intro d h
      have hr := h r (List.mem_cons_self r rest)
      simp only [add_roots_from_json, hr, List.foldl_cons]
      exact ih (add_root env d r) (fun x hx => h x (List.mem_cons_of_mem r hx))

theorem foldl_add_root_invariant (env : ModelEnv) (l : List ModelId) :
    ∀ d : DocState, DocInvariant env d →
      DocInvariant env (l.foldl (add_root env) d) := by
  induction l with
  | nil => intro d h; exact h
  | cons r rest ih =>
      intro d h
      simp only [List.foldl_cons]
      exact ih _ (add_root_invariant env d r h)

theorem foldl_add_root_roots (env : ModelEnv) (l : List ModelId) :
    ∀ d : DocState, (l.foldl (add_root env) d).roots = d.roots ∪ l.toFinset := by
  induction l with
  | nil => intro d; simp
  | cons r rest ih =>
      intro d
      simp only [List.foldl_cons, ih, add_root_roots, List.toFinset_cons]
      ext x
      simp only [Finset.mem_union, Finset.mem_insert]
      tauto

theorem set_title_ok (s : DocState) (t : String) :
    ∃ d, set_title s (some t) = .ok d ∧ d.title = t ∧ d.roots = s.roots ∧
      d.allModels = s.allModels := by
  by_cases h : s.title = t
  · exact ⟨s, by simp [set_title, h], h, rfl, rfl⟩
  · exact ⟨trigger_on_change { s with title := t } (.titleChanged t),
      by simp [set_title, h], rfl, rfl, rfl⟩

theorem initDocState_invariant (env : ModelEnv) (i : Nat) :
    DocInvariant env (initDocState i) := ⟨rfl, by simp [initDocState], rfl⟩

/-- C2: deserializing the JSON form produced by `to_json` yields a document
with the same root ids, the same title, and the same set of reachable-model
ids, for every document satisfying the closure invariant (with the Model
Capability contract that `references()` contains the model itself). -/
theorem C2_json_roundtrip (env : ModelEnv) (s : DocState)
    (hself : ∀ m, m ∈ env.refs m) (h : DocInvariant env s) :
    ∃ d, from_json env (to_json s) = .ok d ∧
      d.roots = s.roots ∧ d.title = s.title ∧ d.allModels = s.allModels := by
  obtain ⟨hf, hall, hat⟩ := h
  have hsub : ∀ r ∈ s.roots, r ∈ s.allModels := by
    intro r hr
    rw [hall]
    exact Finset.mem_biUnion.mpr ⟨r, hr, hself r⟩
  have hlook : ∀ r ∈ (to_json s).rootIds,
      ref_lookup (instantiate_references_json ((to_json s).references)) r =
        some r := by
    intro r hr
    apply ref_lookup_map_self
    have hrr : r ∈ s.roots := by
      simpa [to_json, Finset.mem_sort] using hr
    simpa [to_json, Finset.mem_sort] using hsub r hrr
  have hroots_mid : (((to_json s).rootIds).foldl (add_root env)
      (initDocState 0)).roots = s.roots := by
    rw [foldl_add_root_roots]
    simp [initDocState, to_json, Finset.sort_toFinset]
  obtain ⟨d, hd, h1, h2, h3⟩ :=
    set_title_ok (((to_json s).rootIds).foldl (add_root env) (initDocState 0))
      s.title
  obtain ⟨_, ham, _⟩ := foldl_add_root_invariant env (to_json s).rootIds
    (initDocState 0) (initDocState_invariant env 0)
  refine ⟨d, ?_, ?_, h1, ?_⟩
  · unfold from_json
    rw [add_roots_from_json_ok env _ _ _ hlook]
    exact hd
  · rw [h2, hroots_mid]
  · rw [h3, ham, hroots_mid, ← hall]

theorem C2_witness :
    (∀ m, m ∈ envSelf.refs m) ∧ DocInvariant envSelf docTwoRoots ∧
    ∃ d, from_json envSelf (to_json docTwoRoots) = .ok d ∧
      d.roots = docTwoRoots.roots ∧ d.title = docTwoRoots.title ∧
      d.allModels = docTwoRoots.allModels :=
  ⟨fun m => Finset.mem_singleton_self m, by decide,
   C2_json_roundtrip envSelf docTwoRoots (fun m => Finset.mem_singleton_self m)
     (by decide)⟩

theorem create_json_patch_events_mono (env : ModelEnv) (selfId : Nat) :
    ∀ (es : List PEvent) (recs : List JPatchRecord) (acc : Finset ModelId)
      (out : List JPatchRecord × Finset ModelId),
    create_json_patch_events env selfId es recs acc = .ok out → acc ⊆ out.2 := by
  intro es
  induction es with
  | nil =>
      intro recs acc out h
      rw [create_json_patch_events] at h
      injection h with h
      rw [← h]
  | cons e0 rest ih =>
      intro recs acc out h
      rw [create_json_patch_events] at h
      split at h
      · exact Except.noConfusion h
      · split at h
        · exact Finset.Subset.trans Finset.subset_union_left (ih _ _ _ h)
        · exact Finset.Subset.trans Finset.subset_union_left (ih _ _ _ h)
        · exact ih _ _ _ h
        · exact ih _ _ _ h
        · exact ih _ _ _ h
        · exact ih _ _ _ h

theorem create_patch_modelchanged_aux (env : ModelEnv) (selfId : Nat) :
    ∀ (es : List PEvent) (recs : List JPatchRecord) (acc : Finset ModelId)
      (out : List JPatchRecord × Finset ModelId),
    create_json_patch_events env selfId es recs acc = .ok out →
    ∀ e ∈ es, ∀ (m : ModelId) (attr : String) (ov nv : JValue),
      e.data = .modelChanged m attr ov nv →
      ((collect_models nv).erase m ⊆ out.2 ∧ (nv = .jmodel m → m ∈ out.2)) := by
  intro es
  induction es with
  | nil => intro recs acc out h e he; cases he
  | cons e0 rest ih =>
      intro recs acc out h e he m attr ov nv hdata
      rcases List.mem_cons.mp he with rfl | he'
      · rw [create_json_patch_events] at h
        split at h
        · exact Except.noConfusion h
        · simp only [hdata] at h
          have hmono := create_json_patch_events_mono env selfId rest _ _ _ h
          have hsubvr : (collect_models nv).erase m ⊆
              (if JValue.jmodel m ≠ nv then (collect_models nv).erase m
               else collect_models nv) := by
            by_cases hnv : JValue.jmodel m ≠ nv
            · rw [if_pos hnv]
            · rw [if_neg hnv]
              exact Finset.erase_subset m (collect_models nv)
          refine ⟨Finset.Subset.trans
            (Finset.Subset.trans hsubvr Finset.subset_union_right) hmono, ?_⟩
          intro hnvm
          apply hmono
          apply Finset.mem_union_right
          rw [if_neg (by rw [hnvm]; simp), hnvm]
          simp [collect_models]
      · rw [create_json_patch_events] at h
        split at h
        · exact Except.noConfusion h
        · split at h <;> exact ih _ _ _ h e he' m attr ov nv hdata

/-- C4: for every `ModelChangedEvent` processed by the patch generator, the
emitted references accumulator contains `Model.collect_models(event.new)`
with `event.model` excluded — except when the new value literally is
`event.model`, in which case `event.model` stays in the references. -/
theorem C4_patch_references (env : ModelEnv) (selfId : Nat) (es : List PEvent)
    (recs : List JPatchRecord) (acc : Finset ModelId)
    (h : create_json_patch env selfId es = .ok (recs, acc))
    (e : PEvent) (he : e ∈ es) (m : ModelId) (attr : String) (ov nv : JValue)
    (hdata : e.data = .modelChanged m attr ov nv) :
    (collect_models nv).erase m ⊆ acc ∧ (nv = .jmodel m → m ∈ acc) :=
  create_patch_modelchanged_aux env selfId es [] ∅ (recs, acc) h e he m attr ov
    nv hdata

theorem C4_witness :
    (create_json_patch envSelf 1
        [⟨1, .modelChanged 2 "child" (.jnum 0) (.jmodel 3)⟩,
         ⟨1, .modelChanged 4 "value" (.jnum 0) (.jmodel 4)⟩] =
      .ok ([.modelChanged 2 "child" (.jmodel 3),
            .modelChanged 4 "value" (.jmodel 4)], {3, 4})) ∧
    ((collect_models (.jmodel 3)).erase 2 ⊆ ({3, 4} : Finset ModelId) ∧
      (JValue.jmodel 3 = .jmodel 2 → 2 ∈ ({3, 4} : Finset ModelId))) ∧
    ((collect_models (.jmodel 4)).erase 4 ⊆ ({3, 4} : Finset ModelId) ∧
      (JValue.jmodel 4 = .jmodel 4 → 4 ∈ ({3, 4} : Finset ModelId))) :=
  ⟨by decide,
   C4_patch_references envSelf 1
     [⟨1, .modelChanged 2 "child" (.jnum 0) (.jmodel 3)⟩,
      ⟨1, .modelChanged 4 "value" (.jnum 0) (.jmodel 4)⟩]
     [.modelChanged 2 "child" (.jmodel 3), .modelChanged 4 "value" (.jmodel 4)]
     {3, 4} (by decide)
     ⟨1, .modelChanged 2 "child" (.jnum 0) (.jmodel 3)⟩ (by decide) 2 "child"
     (.jnum 0) (.jmodel 3) rfl,
   C4_patch_references envSelf 1
     [⟨1, .modelChanged 2 "child" (.jnum 0) (.jmodel 3)⟩,
      ⟨1, .modelChanged 4 "value" (.jnum 0) (.jmodel 4)⟩]
     [.modelChanged 2 "child" (.jmodel 3), .modelChanged 4 "value" (.jmodel 4)]
     {3, 4} (by decide)
     ⟨1, .modelChanged 4 "value" (.jnum 0) (.jmodel 4)⟩ (by decide) 4 "value"
     (.jnum 0) (.jmodel 4) rfl⟩

theorem create_patch_skip_step (env : ModelEnv) (selfId : Nat) (e : PEvent)
    (hdoc : e.document = selfId) (hkind : isPatchRecorded e.data = false) :
    ∀ (es1 es2 : List PEvent) (recs : List JPatchRecord) (acc : Finset ModelId),
    create_json_patch_events env selfId (es1 ++ e :: es2) recs acc =
      create_json_patch_events env selfId (es1 ++ es2) recs acc := by
  intro es1
  induction es1 with
  | nil =>
      intro es2 recs acc
      simp only [List.nil_append]
      rw [create_json_patch_events]
      rw [if_neg (by simp [hdoc])]
      rcases e with ⟨ed, edata⟩
      cases edata <;> simp_all [isPatchRecorded]
  | cons a rest ih =>
      intro es2 recs acc
      simp only [List.cons_append]
      rw [create_json_patch_events, create_json_patch_events]
      by_cases hda : a.document ≠ selfId
      · rw [if_pos hda, if_pos hda]
      · rw [if_neg hda, if_neg hda]
        cases a.data <;> simp only [ih]

/-- C10: an event of a kind other than ModelChanged / RootAdded /
RootRemoved / TitleChanged (for example `SessionCallbackAdded` or
`SessionCallbackRemoved`) belonging to this document is silently skipped
by the patch generator: removing it from the event list leaves the patch
(both the event records and the references) unchanged, and it raises no
error. -/
theorem C10_patch_skips_other_events (env : ModelEnv) (selfId : Nat)
    (es1 es2 : List PEvent) (e : PEvent) (hdoc : e.document = selfId)
    (hkind : isPatchRecorded e.data = false) :
    create_json_patch env selfId (es1 ++ e :: es2) =
      create_json_patch env selfId (es1 ++ es2) :=
  create_patch_skip_step env selfId e hdoc hkind es1 es2 [] ∅

theorem C10_witness :
    (⟨1, .sessionCallbackAdded ⟨0, 7, .periodic 5⟩⟩ : PEvent).document = 1 ∧
    isPatchRecorded (PEventData.sessionCallbackAdded ⟨0, 7, .periodic 5⟩) = false ∧
    create_json_patch envSelf 1
        ([⟨1, .rootAdded 2⟩] ++ ⟨1, .sessionCallbackAdded ⟨0, 7, .periodic 5⟩⟩ ::
          [⟨1, .titleChanged "T"⟩]) =
      create_json_patch envSelf 1 ([⟨1, .rootAdded 2⟩] ++ [⟨1, .titleChanged "T"⟩]) :=
  ⟨rfl, rfl,
   C10_patch_skips_other_events envSelf 1 [⟨1, .rootAdded 2⟩]
     [⟨1, .titleChanged "T"⟩] ⟨1, .sessionCallbackAdded ⟨0, 7, .periodic 5⟩⟩ rfl rfl⟩

theorem runCb_fields (g : CurdocWorld) (c : Nat × CbAct) :
    (runCb g c).1.curdoc = g.curdoc ∧
    (runCb g c).1.invoked = g.invoked ++ [(c.1, g.curdoc)] := by
  rcases c with ⟨i, act⟩
  cases act with
  | noop => exact ⟨rfl, rfl⟩
  | addCb j =>
      constructor <;> · simp only [runCb]; split <;> rfl
  | removeCb j =>
      constructor <;> · simp only [runCb]; split <;> rfl
  | failCb => exact ⟨rfl, rfl⟩

theorem runCbs_spec (l : List (Nat × CbAct)) :
    ∀ g : CurdocWorld,
    (runCbs g l).1.curdoc = g.curdoc ∧
    ∃ nl, (runCbs g l).1.invoked = g.invoked ++ nl ∧
      (∀ p ∈ nl, p.2 = g.curdoc) ∧
      ((runCbs g l).2 = false → nl = l.map (fun c => (c.1, g.curdoc))) := by
  induction l with
  | nil =>
      intro g
      exact ⟨rfl, [], by simp [runCbs], by simp, fun _ => rfl⟩
  | cons c cs ih =>
      intro g
      obtain ⟨hc1, hc2⟩ := runCb_fields g c
      by_cases hr : (runCb g c).2 = true
      · refine ⟨?_, [(c.1, g.curdoc)], ?_, ?_, ?_⟩
        · simp only [runCbs, hr, if_true]
          exact hc1
        · simp only [runCbs, hr, if_true]
          exact hc2
        · intro p hp
          simp only [List.mem_singleton] at hp
          rw [hp]
        · intro hfl
          exfalso
          simp only [runCbs, hr, if_true] at hfl
          exact Bool.noConfusion hfl
      · have hrf : (runCb g c).2 = false := by
          cases h2 : (runCb g c).2
          · rfl
          · exact absurd h2 hr
        obtain ⟨k1, nl', k2, k3, k4⟩ := ih (runCb g c).1
        have hstep : runCbs g (c :: cs) = runCbs (runCb g c).1 cs := by
          simp only [runCbs, hrf]
          simp
        refine ⟨?_, (c.1, g.curdoc) :: nl', ?_, ?_, ?_⟩
        · rw [hstep, k1, hc1]
        · rw [hstep, k2, hc2]
          simp
        · intro p hp
          rcases List.mem_cons.mp hp with rfl | hp'
          · rfl
          · rw [k3 p hp', hc1]
        · intro hfl
          rw [hstep] at hfl
          rw [k4 hfl, hc1]
          simp

/-- C6: `_trigger_on_change` iterates a snapshot of the registered
callbacks taken at emission time — when no callback raises, exactly the
callbacks registered at entry are invoked, in order, even if callbacks
register or remove listeners during dispatch — and every invocation runs
with the process-wide current document equal to this document, the
previous current document being restored on every exit path, raising
included. -/
theorem C6_trigger_snapshot_curdoc (d : Nat) (g g' : CurdocWorld)
    (raised : Bool) (h : triggerDispatch d g = (g', raised)) :
    g'.curdoc = g.curdoc ∧
    ∃ nl, g'.invoked = g.invoked ++ nl ∧ (∀ p ∈ nl, p.2 = some d) ∧
      (raised = false → nl = g.callbacks.map (fun c => (c.1, some d))) := by
  obtain ⟨k1, nl, k2, k3, k4⟩ :=
    runCbs_spec g.callbacks { g with curdoc := some d }
  have hfst : g' = (triggerDispatch d g).1 := (congrArg Prod.fst h).symm
  have hsnd : raised = (triggerDispatch d g).2 := (congrArg Prod.snd h).symm
  refine ⟨?_, nl, ?_, ?_, ?_⟩
  · rw [hfst]
    rfl
  · rw [hfst]
    exact k2
  · exact fun p hp => k3 p hp
  · intro hfl
    exact k4 (hsnd.symm.trans hfl)

theorem C6_witness :
    (triggerDispatch 5 ⟨none, [(1, .noop), (2, .addCb 9)], []⟩ =
      (⟨none, [(1, .noop), (2, .addCb 9), (9, .noop)],
        [(1, some 5), (2, some 5)]⟩, false)) ∧
    ((⟨none, [(1, .noop), (2, .addCb 9), (9, .noop)],
        [(1, some 5), (2, some 5)]⟩ : CurdocWorld).curdoc =
      (⟨none, [(1, .noop), (2, .addCb 9)], []⟩ : CurdocWorld).curdoc ∧
     ∃ nl, (⟨none, [(1, .noop), (2, .addCb 9), (9, .noop)],
        [(1, some 5), (2, some 5)]⟩ : CurdocWorld).invoked =
          (⟨none, [(1, .noop), (2, .addCb 9)], []⟩ : CurdocWorld).invoked ++ nl ∧
       (∀ p ∈ nl, p.2 = some 5) ∧
       (false = false →
         nl = (⟨none, [(1, .noop), (2, .addCb 9)], []⟩ : CurdocWorld).callbacks.map
           (fun c => (c.1, some 5)))) :=
  ⟨by decide,
   C6_trigger_snapshot_curdoc 5 ⟨none, [(1, .noop), (2, .addCb 9)], []⟩
     ⟨none, [(1, .noop), (2, .addCb 9), (9, .noop)], [(1, some 5), (2, some 5)]⟩
     false (by decide)⟩
